import Mathlib

/-!
Verification of the stalker-tools repository against its specification.

The Python sources are shallowly embedded in Lean:
* byte strings (`bytes`, `bytearray`, `memoryview`) become `List Nat` whose
  elements are below 256;
* Python unbounded integers become `Nat` where the source value is provably
  nonnegative and `Int` where the source relies on Python's signed semantics
  (arithmetic right shift of negative values is `Int.fdiv` by a power of two,
  `x & m` on a possibly negative `x` with a nonnegative mask is `Int.emod`);
* exceptions become `Except` values of the `PyErr` type below;
* unbounded loops are driven by an explicit fuel parameter; loops with a
  syntactically evident measure use well-founded recursion.
-/

/-- Errors raised by the embedded code.  Each constructor corresponds to an
exception class of the sources (`TypeError` is Python's own). -/
inductive PyErr where
  | outOfBound          -- SequensorReader.OutOfBoundException
  | typeError           -- Python TypeError
  | wrongDataFormat     -- LzHuf.WrongDataFormat
  | wrongDbFormat       -- DBReader.WrongDbFormat
  | dbFileOverrun       -- DBReader.DbFileOverrun
  | unspecifiedDbFormat -- DBReader.UnspecifiedDbFormat
  | keyError            -- Python KeyError
  deriving DecidableEq, Repr

/-! ## SequensorReader.py -/

namespace SequensorReader

/-- State of a `SequensorReader`: the buffer and the cursor position
(`self.buff`, `self.pos`).  The byte order is the default little-endian
`<` throughout the repository. -/
structure SR where
  buff : List Nat
  pos : Nat
  deriving DecidableEq, Repr

/-- Little-endian value of the `w` bytes of `l` starting at offset `o`
(out-of-range bytes read as 0; callers check bounds first, as the source
checks `self.pos + _size > len(self.buff)` before unpacking). -/
def leValue (l : List Nat) (o w : Nat) : Nat :=
  match w with
  | 0 => 0
  | w + 1 => l.getD o 0 + 256 * leValue l (o + 1) w

/-- `SequensorReader.read` for a single little-endian unsigned scalar format of
width `w` bytes (`B` = 1, `H` = 2, `I` = 4): checks
`self.pos + _size > len(self.buff)`, raising `OutOfBoundException` before any
state change, otherwise unpacks and advances `self.pos`. -/
def read (w : Nat) (r : SR) : Except PyErr Nat × SR :=
  if r.buff.length < r.pos + w then (.error .outOfBound, r)
  else (.ok (leValue r.buff r.pos w), { r with pos := r.pos + w })

/-- `bytes.find(b'\0', pos)`: index of the first zero byte at position
`≥ pos`, or `none` (Python returns `-1`). -/
def findNul (buff : List Nat) (pos : Nat) : Option Nat :=
  match (buff.drop pos).findIdx? (fun b => b == 0) with
  | none => none
  | some i => some (pos + i)

/-- `SequensorReader.read_string`: reads a null-terminated string; raises
`OutOfBoundException` when no terminator exists; on success returns the bytes
before the terminator (UTF-8 decoding is not modelled) and sets `self.pos`
one past the null byte. -/
def read_string (r : SR) : Except PyErr (List Nat) × SR :=
  match findNul r.buff r.pos with
  | none => (.error .outOfBound, r)
  | some idx => (.ok ((r.buff.drop r.pos).take (idx - r.pos)), { r with pos := idx + 1 })

/-- `SequensorReader.read_bytes` with an explicit `size` (and the default
`update_position = True`): slices `self.buff[self.pos:self.pos+size]`, raises
`OutOfBoundException` if the slice is short, otherwise advances `self.pos`. -/
def read_bytes (size : Nat) (r : SR) : Except PyErr (List Nat) × SR :=
  let ret := (r.buff.drop r.pos).take size
  if ret.length ≠ size then (.error .outOfBound, r)
  else (.ok ret, { r with pos := r.pos + size })

/-- `SequensorReader.read_bytes` with `size = None` (and the default
`update_position = True`): returns `self.buff[self.pos:]` and sets
`self.pos = len(self.buff) + 1`. -/
def read_bytes_none (r : SR) : List Nat × SR :=
  (r.buff.drop r.pos, { r with pos := r.buff.length + 1 })

/-- `SequensorReader.remain`: `len(self.buff) - self.pos`, which in Python can
be negative, hence `Int`. -/
def remain (r : SR) : Int :=
  (r.buff.length : Int) - (r.pos : Int)

end SequensorReader

namespace Claims

open SequensorReader

/-- Claim C7: a typed little-endian scalar read, a null-terminated string
read, or an exact `k`-byte read that would require more bytes than remain in
the buffer fails with `OutOfBoundException`, returns no data, and leaves the
cursor position (indeed the whole reader state) unchanged. -/
theorem c7_reads_fail_atomically (r : SR) (w k : Nat) :
    (r.buff.length < r.pos + w → SequensorReader.read w r = (.error .outOfBound, r)) ∧
    ((∀ i, r.pos ≤ i → i < r.buff.length → r.buff.getD i 0 ≠ 0) →
      read_string r = (.error .outOfBound, r)) ∧
    (r.buff.length < r.pos + k → 0 < k →
      read_bytes k r = (.error .outOfBound, r)) := by
  refine ⟨fun h => ?_, fun h => ?_, fun h hk => ?_⟩
  · rw [SequensorReader.read, if_pos h]
  · have hnone : (r.buff.drop r.pos).findIdx? (fun b => b == 0) = none := by
      rw [List.findIdx?_eq_none_iff]
      intro x hx
      rcases List.mem_iff_getElem.1 hx with ⟨n, hn, rfl⟩
      have hlen : r.pos + n < r.buff.length := by
        have := r.buff.length_drop r.pos
        omega
      have hx' : (r.buff.drop r.pos)[n] = r.buff.getD (r.pos + n) 0 := by
        rw [List.getElem_drop, ← List.getD_eq_getElem r.buff 0 hlen]
      have hne : r.buff.getD (r.pos + n) 0 ≠ 0 := h (r.pos + n) (by omega) hlen
      simp only [hx', beq_eq_false_iff_ne]
      exact hne
    rw [read_string, findNul, hnone]
  · have hshort : r.buff.length - r.pos < k := by omega
    simp [read_bytes, hshort]

/-- Witness for C7 at a concrete reader: every hypothesis is discharged on the
one-byte buffer `[7]` with the cursor at 0. -/
theorem c7_reads_fail_atomically_witness :
    read 2 ⟨[7], 0⟩ = (.error .outOfBound, ⟨[7], 0⟩) ∧
    read_string ⟨[7], 0⟩ = (.error .outOfBound, ⟨[7], 0⟩) ∧
    read_bytes 2 ⟨[7], 0⟩ = (.error .outOfBound, ⟨[7], 0⟩) := by
  obtain ⟨h1, h2, h3⟩ := c7_reads_fail_atomically ⟨[7], 0⟩ 2 2
  exact ⟨h1 (by decide), h2 (by decide), h3 (by decide) (by decide)⟩

/-- Claim C8, counterexample: the claim says the cursor position never exceeds
the buffer length after a successful read, including the read of all remaining
bytes with the size omitted; but `read_bytes(None)` on the empty buffer at
position 0 succeeds and sets the position to `len(buff) + 1 = 1 > 0`. -/
theorem c8_pos_bound_counterexample :
    (read_bytes_none ⟨[], 0⟩).2.pos = 1 ∧
    ¬ (read_bytes_none ⟨[], 0⟩).2.pos ≤ (⟨[], 0⟩ : SR).buff.length := by
  decide

/-- Claim C8, amended: after a successful scalar read, string read, or exact
`k`-byte read with `k > 0` the position is at most the buffer length; an exact
0-byte read keeps the position, so the bound also holds whenever it held
before; the read of all remaining bytes instead always sets the position to
`len(buff) + 1`, marking the cursor exhausted. -/
theorem c8_pos_bound_amended (r : SR) (w k : Nat) :
    (∀ v r', read w r = (.ok v, r') → r'.pos ≤ r.buff.length) ∧
    (∀ v r', read_string r = (.ok v, r') → r'.pos ≤ r.buff.length) ∧
    (∀ v r', 0 < k → read_bytes k r = (.ok v, r') → r'.pos ≤ r.buff.length) ∧
    (∀ v r', r.pos ≤ r.buff.length → read_bytes k r = (.ok v, r') →
      r'.pos ≤ r.buff.length) ∧
    (read_bytes_none r).2.pos = r.buff.length + 1 := by
  refine ⟨?_, ?_, ?_, ?_, rfl⟩
  · intro v r' hok
    rw [SequensorReader.read] at hok
    split at hok
    next h => exact absurd hok (by simp)
    next h =>
      rw [Prod.mk.injEq] at hok
      obtain ⟨-, rfl⟩ := hok
      show r.pos + w ≤ r.buff.length
      omega
  · intro v r' hok
    rw [read_string] at hok
    rw [findNul] at hok
    rcases hfi : (r.buff.drop r.pos).findIdx? (fun b => b == 0) with _ | i
    · rw [hfi] at hok
      exact absurd hok (by simp)
    · rw [hfi] at hok
      rw [Prod.mk.injEq] at hok
      obtain ⟨-, rfl⟩ := hok
      have hi : i < (r.buff.drop r.pos).length := by
        rcases List.findIdx?_eq_some_iff_getElem.1 hfi with ⟨h, -⟩
        exact h
      rw [List.length_drop] at hi
      show r.pos + i + 1 ≤ r.buff.length
      omega
  · intro v r' hk hok
    rw [read_bytes] at hok
    split at hok
    next h => exact absurd hok (by simp)
    next h =>
      rw [Prod.mk.injEq] at hok
      obtain ⟨-, rfl⟩ := hok
      push_neg at h
      rw [List.length_take, List.length_drop] at h
      show r.pos + k ≤ r.buff.length
      omega
  · intro v r' hpos hok
    rw [read_bytes] at hok
    split at hok
    next h => exact absurd hok (by simp)
    next h =>
      rw [Prod.mk.injEq] at hok
      obtain ⟨-, rfl⟩ := hok
      push_neg at h
      rw [List.length_take, List.length_drop] at h
      show r.pos + k ≤ r.buff.length
      omega

/-- Witness for the amended C8 on the buffer `[0, 7]`: a successful 1-byte
scalar read, string read and 1-byte read all leave the position within the
2-byte buffer. -/
theorem c8_pos_bound_amended_witness :
    (⟨[0, 7], 1⟩ : SR).pos ≤ (⟨[0, 7], 0⟩ : SR).buff.length ∧
    (read_bytes_none ⟨[0, 7], 0⟩).2.pos = 3 := by
  obtain ⟨h1, h2, h3, h4, h5⟩ := c8_pos_bound_amended ⟨[0, 7], 0⟩ 1 1
  exact ⟨h1 0 ⟨[0, 7], 1⟩ (by rfl), by decide⟩

end Claims

/-! ## DBReader.py -/

namespace DBReader

open SequensorReader

/-- `ChunkTypes.DB_CHUNK_DATA`. -/
def DB_CHUNK_DATA : Nat := 0

/-- `ChunkTypes.DB_CHUNK_HEADER`. -/
def DB_CHUNK_HEADER : Nat := 1

/-- `ChunkTypes.DB_CHUNK_USERDATA`. -/
def DB_CHUNK_USERDATA : Nat := 0x29a

/-- `ChunkTypes.CHUNK_COMPRESSED`. -/
def CHUNK_COMPRESSED : Nat := 0x80000000

/-- `ChunkTypes.DB_CHUNK_MASK = CHUNK_COMPRESSED ^ ((1 << CHUNK_COMPRESSED.bit_length()) - 1)`;
`(0x80000000).bit_length()` is 32, so this is `0x80000000 ^^^ (2 ^ 32 - 1) = 0x7FFFFFFF`. -/
def DB_CHUNK_MASK : Nat := CHUNK_COMPRESSED ^^^ (2 ^ 32 - 1)

/-- Members of the Python `ChunkTypes` `IntEnum`.  Note that the enum holds
all five named constants, including the flag `CHUNK_COMPRESSED` and the mask
`DB_CHUNK_MASK` themselves. -/
inductive ChunkType where
  | DATA | HEADER | USERDATA | COMPRESSED | MASK
  deriving DecidableEq

/-- The integer value of a `ChunkTypes` member. -/
def ChunkType.value : ChunkType → Nat
  | .DATA => DB_CHUNK_DATA
  | .HEADER => DB_CHUNK_HEADER
  | .USERDATA => DB_CHUNK_USERDATA
  | .COMPRESSED => CHUNK_COMPRESSED
  | .MASK => DB_CHUNK_MASK

/-- The `IntEnum` call `ChunkTypes(n)`: the member with value `n`, or `none`
(Python raises `ValueError`). -/
def ChunkType.ofValue (n : Nat) : Option ChunkType :=
  if n = DB_CHUNK_DATA then some .DATA
  else if n = DB_CHUNK_HEADER then some .HEADER
  else if n = DB_CHUNK_USERDATA then some .USERDATA
  else if n = CHUNK_COMPRESSED then some .COMPRESSED
  else if n = DB_CHUNK_MASK then some .MASK
  else none

/-- `XRReader.Chunk` after construction.  The source also stores
`self.buff = parent_sr.buff`; the buffer (only its length is ever used by
`_check`) is passed explicitly to the operations below instead. -/
structure Chunk where
  type : ChunkType
  size : Nat
  parent_pos : Nat
  is_compressed : Bool
  deriving DecidableEq

/-- `XRReader.Chunk.__init__(type, size, parent_sr)` over a buffer of length
`bufLen` and with `parent_sr.pos = parent_pos`: decodes
`ChunkTypes(type & DB_CHUNK_MASK)` (a `ValueError` becomes `WrongDbFormat`),
sets `is_compressed = bool(type & CHUNK_COMPRESSED)`, then `_check` raises
`DbFileOverrun` when `parent_pos + size > len(buff)`. -/
def Chunk.init (type size parent_pos bufLen : Nat) : Except PyErr Chunk :=
  match ChunkType.ofValue (type &&& DB_CHUNK_MASK) with
  | none => .error .wrongDbFormat
  | some t =>
    if bufLen < parent_pos + size then .error .dbFileOverrun
    else .ok ⟨t, size, parent_pos, decide (type &&& CHUNK_COMPRESSED ≠ 0)⟩

/-- First argument of `struct.Struct(format)`: the repository sometimes passes
a format string and sometimes (erroneously) an `int`. -/
inductive StructArg where
  | str (s : List Char)
  | int (n : Nat)

/-- `struct.Struct(format).size` for the little-endian formats the repository
uses; `struct.Struct` raises `TypeError` when `format` is not a string
(characters outside the table contribute 0, which never occurs here). -/
def Struct_size : StructArg → Except PyErr Nat
  | .int _ => .error .typeError
  | .str s => .ok (s.foldl (fun acc c =>
      acc + (if c = 'B' ∨ c = 'b' then 1
             else if c = 'H' ∨ c = 'h' then 2
             else if c = 'I' ∨ c = 'i' ∨ c = 'f' then 4
             else if c = 'Q' ∨ c = 'q' ∨ c = 'd' then 8
             else 0)) 0)

/-- `SequensorReader.skip(format)`: builds `struct.Struct(format)` and adds
its size to `self.pos` — with no bounds check.  `XRReader.iter_chunks` calls
it as `self.sr.skip(size)` with the chunk size, an `int`. -/
def skip (fmt : StructArg) (r : SR) : Except PyErr SR :=
  match Struct_size fmt with
  | .error e => .error e
  | .ok sz => .ok { r with pos := r.pos + sz }

/-- `SequensorReader.read('II')` (byte order `<`): checks
`pos + 8 > len(buff)` and unpacks two little-endian u32 values. -/
def read_II (r : SR) : Except PyErr ((Nat × Nat) × SR) :=
  if r.buff.length < r.pos + 8 then .error .outOfBound
  else .ok ((leValue r.buff r.pos 4, leValue r.buff (r.pos + 4) 4),
            { r with pos := r.pos + 8 })

/-- Loop body of `XRReader.iter_chunks`: while `pos < len(buff)`, read the
8-byte chunk header, construct the `Chunk` (yielding it), then
`self.sr.skip(size)`.  Returns the yielded chunks together with the exception
(if any) that ended the iteration; `none` is fuel exhaustion. -/
def iterChunksGo (fuel : Nat) (r : SR) : Option (List Chunk × Option PyErr) :=
  match fuel with
  | 0 => none
  | fuel + 1 =>
    if r.pos < r.buff.length then
      match read_II r with
      | .error e => some ([], some e)
      | .ok ((type, size), r') =>
        match Chunk.init type size r'.pos r'.buff.length with
        | .error e => some ([], some e)
        | .ok c =>
          match skip (.int size) r' with
          | .error e => some ([c], some e)
          | .ok r'' =>
            match iterChunksGo fuel r'' with
            | none => none
            | some (cs, err) => some (c :: cs, err)
    else some ([], none)

/-- `XRReader.iter_chunks()` on a buffer, from position 0. -/
def iter_chunks (buff : List Nat) : Option (List Chunk × Option PyErr) :=
  iterChunksGo (buff.length + 1) ⟨buff, 0⟩

/-! ### DbFileVersion -/

/-- Members of the `DbVersion` `IntEnum`. -/
inductive DbVersion where
  | AUTO | V1114 | V2215 | V2945 | V2947RU | V2947WW | VXDB
  deriving DecidableEq

/-- The integer value of a `DbVersion` member. -/
def DbVersion.value : DbVersion → Nat
  | .AUTO => 0
  | .V1114 => 0x01
  | .V2215 => 0x02
  | .V2945 => 0x04
  | .V2947RU => 0x08
  | .V2947WW => 0x10
  | .VXDB => 0x20

/-- `DbFileVersion.FILE_VERSIONS`. -/
def FILE_VERSIONS : List (String × DbVersion) :=
  [("11xx", .V1114), ("2215", .V2215), ("2945", .V2945),
   ("2947ru", .V2947RU), ("2947ww", .V2947WW), ("xdb", .VXDB)]

/-- `DbFileVersion.get_version_by_name`: a falsy (absent or empty) name gives
`DB_VERSION_AUTO`; otherwise a dictionary lookup (`KeyError` on a miss). -/
def get_version_by_name (version_name : Option String) : Except PyErr DbVersion :=
  match version_name with
  | none => .ok .AUTO
  | some s =>
    if s = "" then .ok .AUTO
    else match FILE_VERSIONS.lookup s with
      | some v => .ok v
      | none => .error .keyError

/-- `str.rfind(c)` on a list of characters: the highest index holding `c`. -/
def rfind (c : Char) (l : List Char) : Option Nat :=
  match l.reverse.findIdx? (fun x => x == c) with
  | none => none
  | some j => some (l.length - 1 - j)

/-- `pathlib.PurePath.suffix` of a file name (the repository passes plain
names, so the whole string is the final path component):
`i = name.rfind('.'); name[i:] if 0 < i < len(name) - 1 else ''`. -/
def suffix (name : List Char) : List Char :=
  match rfind '.' name with
  | none => []
  | some i => if 0 < i ∧ i < name.length - 1 then name.drop i else []

/-- The `elif` chain of `DbFileVersion.get_version_by_file_name` that infers
the version from the file extension.  `str.startswith` of a literal is
modelled as equality of the corresponding prefix.  Python's single-character
`str.isalnum` is Unicode-aware (categories L* and N*); its classification
table is not reproduced here, so the predicate is a parameter `isalnum` of
the embedding and every theorem below quantifies over it — the branch
conditions therefore coincide with the code's for the actual Python
predicate. -/
def infer_version (isalnum : Char → Bool) (file_ext : List Char) : DbVersion :=
  if file_ext.length = 5 ∧ file_ext.take 4 = ['.', 'x', 'd', 'b'] ∧
      isalnum (file_ext.getD 4 ' ') = true then .VXDB
  else if file_ext = ['.', 'x', 'r', 'p'] then .V1114
  else if file_ext.length = 4 ∧ file_ext.take 3 = ['.', 'x', 'p'] ∧
      isalnum (file_ext.getD 3 ' ') = true then .V2215
  else .AUTO

/-- `DbFileVersion.get_version_by_file_name` (parameterised by the
`str.isalnum` character predicate, see `infer_version`): resolves the
explicit version name; on `DB_VERSION_AUTO` tries to infer the version from
the extension; finally raises `UnspecifiedDbFormat` when the version is
still `AUTO` or its value is not a power of two
(`version.value & (version.value - 1) != 0`). -/
def get_version_by_file_name (isalnum : Char → Bool) (fileName : List Char)
    (version_name : Option String) : Except PyErr DbVersion :=
  match get_version_by_name version_name with
  | .error e => .error e
  | .ok version =>
    let version :=
      if version = .AUTO then infer_version isalnum (suffix fileName) else version
    if version = .AUTO ∨ version.value &&& (version.value - 1) ≠ 0 then
      .error .unspecifiedDbFormat
    else .ok version

end DBReader

namespace Claims

open DBReader

/-- Helper: the final validity check of `get_version_by_file_name` rejects a
version exactly when it is `AUTO`, because every non-`AUTO` member value is a
power of two. -/
theorem dbVersion_check_iff (v : DbVersion) :
    (v = .AUTO ∨ v.value &&& (v.value - 1) ≠ 0) ↔ v = .AUTO := by
  cases v <;> decide

/-- Helper: with no explicit version name, `get_version_by_file_name` reduces
to the extension inference followed by the `AUTO` check. -/
theorem get_version_none_eq (isalnum : Char → Bool) (fn : List Char) :
    get_version_by_file_name isalnum fn none =
      (if infer_version isalnum (suffix fn) = .AUTO then .error .unspecifiedDbFormat
       else .ok (infer_version isalnum (suffix fn))) := by
  have h1 : get_version_by_file_name isalnum fn none =
      (if infer_version isalnum (suffix fn) = .AUTO ∨
          (infer_version isalnum (suffix fn)).value &&&
            ((infer_version isalnum (suffix fn)).value - 1) ≠ 0 then
        (.error .unspecifiedDbFormat : Except PyErr DbVersion)
       else .ok (infer_version isalnum (suffix fn))) := rfl
  rw [h1]
  simp only [dbVersion_check_iff]

/-- Claim C4, counterexample: the raw chunk type `0x7FFFFFFF` has bit 31
clear and its masked value `0x7FFFFFFF` is outside the closed set
`{DATA, HEADER, USERDATA}`, yet `Chunk.__init__` succeeds (the mask constant
`DB_CHUNK_MASK` is itself a member of the `ChunkTypes` enum) instead of
raising `WrongDbFormat`. -/
theorem c4_chunk_type_counterexample :
    Chunk.init 0x7FFFFFFF 0 0 0 = .ok ⟨.MASK, 0, 0, false⟩ ∧
    0x7FFFFFFF &&& DB_CHUNK_MASK ≠ DB_CHUNK_DATA ∧
    0x7FFFFFFF &&& DB_CHUNK_MASK ≠ DB_CHUNK_HEADER ∧
    0x7FFFFFFF &&& DB_CHUNK_MASK ≠ DB_CHUNK_USERDATA := by
  refine ⟨rfl, ?_, ?_, ?_⟩ <;> decide

/-- Claim C4, amended: `is_compressed` is true iff bit 31 of the raw type is
set, and construction fails with `WrongDbFormat` exactly when the masked
value lies outside `{DATA = 0, HEADER = 1, USERDATA = 0x29a,
DB_CHUNK_MASK = 0x7FFFFFFF}` — the mask constant itself is accepted because
it is a member of the same enum (`CHUNK_COMPRESSED = 0x80000000` is a member
too, but is unreachable as a masked value). -/
theorem chunkType_ofValue_none_iff (m : Nat) (hm : m ≠ CHUNK_COMPRESSED) :
    ChunkType.ofValue m = none ↔
      ¬ (m = DB_CHUNK_DATA ∨ m = DB_CHUNK_HEADER ∨ m = DB_CHUNK_USERDATA ∨
         m = DB_CHUNK_MASK) := by
  by_cases h0 : m = DB_CHUNK_DATA
  · subst h0; decide
  by_cases h1 : m = DB_CHUNK_HEADER
  · subst h1; decide
  by_cases h2 : m = DB_CHUNK_USERDATA
  · subst h2; decide
  by_cases h3 : m = DB_CHUNK_MASK
  · subst h3; decide
  simp [ChunkType.ofValue, h0, h1, h2, h3, hm]

theorem chunk_init_eq_of_some (type size pos blen : Nat)
    (t' : ChunkType) (h : ChunkType.ofValue (type &&& DB_CHUNK_MASK) = some t') :
    Chunk.init type size pos blen =
      (if blen < pos + size then .error .dbFileOverrun
       else .ok ⟨t', size, pos, decide (type &&& CHUNK_COMPRESSED ≠ 0)⟩) := by
  rw [Chunk.init, h]

theorem chunk_init_eq_of_none (type size pos blen : Nat)
    (h : ChunkType.ofValue (type &&& DB_CHUNK_MASK) = none) :
    Chunk.init type size pos blen = .error .wrongDbFormat := by
  rw [Chunk.init, h]

theorem c4_chunk_type_amended (raw size pos blen : Nat) :
    (∀ c, Chunk.init raw size pos blen = .ok c →
      (c.is_compressed = true ↔ raw.testBit 31)) ∧
    (Chunk.init raw size pos blen = .error .wrongDbFormat ↔
      ¬ (raw &&& DB_CHUNK_MASK = DB_CHUNK_DATA ∨
         raw &&& DB_CHUNK_MASK = DB_CHUNK_HEADER ∨
         raw &&& DB_CHUNK_MASK = DB_CHUNK_USERDATA ∨
         raw &&& DB_CHUNK_MASK = DB_CHUNK_MASK)) := by
  have hcomp : (decide (raw &&& CHUNK_COMPRESSED ≠ 0) = true) ↔ raw.testBit 31 := by
    have h31 : CHUNK_COMPRESSED = 2 ^ 31 := by decide
    rw [h31, Nat.and_two_pow]
    cases htb : raw.testBit 31 <;> simp
  have hle : raw &&& DB_CHUNK_MASK ≤ DB_CHUNK_MASK := Nat.and_le_right
  have hne80 : raw &&& DB_CHUNK_MASK ≠ CHUNK_COMPRESSED := by
    intro h
    rw [h] at hle
    exact absurd hle (by decide)
  rcases hov : ChunkType.ofValue (raw &&& DB_CHUNK_MASK) with _ | t
  · refine ⟨fun c hc => ?_, ?_⟩
    · rw [chunk_init_eq_of_none raw size pos blen hov] at hc
      exact absurd hc (by simp)
    · rw [chunk_init_eq_of_none raw size pos blen hov]
      exact iff_of_true rfl ((chunkType_ofValue_none_iff _ hne80).mp hov)
  · refine ⟨fun c hc => ?_, ?_⟩
    · rw [chunk_init_eq_of_some raw size pos blen t hov] at hc
      split at hc
      · exact absurd hc (by simp)
      · rw [Except.ok.injEq] at hc
        subst hc
        exact hcomp
    · rw [chunk_init_eq_of_some raw size pos blen t hov]
      have hnn : ¬ ChunkType.ofValue (raw &&& DB_CHUNK_MASK) = none := by
        rw [hov]; simp
      have hdisj := not_not.mp (mt (chunkType_ofValue_none_iff _ hne80).mpr hnn)
      refine iff_of_false ?_ (not_not_intro hdisj)
      split <;> simp

/-- Witness for the amended C4: the raw type `0x80000001` (bit 31 set, masked
value `HEADER = 1`) constructs a chunk whose `is_compressed` is true. -/
theorem c4_chunk_type_amended_witness :
    (⟨.HEADER, 0, 0, true⟩ : Chunk).is_compressed = true :=
  ((c4_chunk_type_amended 0x80000001 0 0 0).1 ⟨.HEADER, 0, 0, true⟩ (by rfl)).mpr
    (by decide)

/-- Claim C5: evaluation at the failing input.  The 16-byte archive holds a
well-formed `HEADER` chunk of size 0 followed by a chunk whose declared size
100 overruns the buffer; the claim expects the iteration to yield the first
chunk and then raise `DbFileOverrun` at the second, but after yielding the
first chunk `iter_chunks` calls `SequensorReader.skip(size)` with an `int`
and `struct.Struct(int)` raises `TypeError`, so the second chunk is never
reached. -/
theorem c5_iter_chunks_overrun_failing_input :
    iter_chunks [1, 0, 0, 0, 0, 0, 0, 0, 0, 0, 0, 0, 100, 0, 0, 0] =
      some ([⟨.HEADER, 0, 8, false⟩], some .typeError) := by
  rfl

/-- Claim C6: version inference from the file name when no explicit version
is supplied, for any single-character `str.isalnum` predicate (Python's is
Unicode-aware, so the embedding leaves it abstract).  A 5-character extension
`.xdb?` whose 5th character is alphanumeric gives `VXDB`; extension `.xrp`
gives `V1114`; a 4-character extension `.xp?` whose 4th character is
alphanumeric gives `V2215`; anything else raises `UnspecifiedDbFormat`; and
the four concrete file names behave as stated (the `.xdba`/`.xp3` cases need
only that the predicate classifies the ASCII characters `a` and `3` as
alphanumeric, which Python does). -/
theorem c6_version_inference (isalnum : Char → Bool) (fn : List Char) :
    ((suffix fn).length = 5 → (suffix fn).take 4 = ['.', 'x', 'd', 'b'] →
      isalnum ((suffix fn).getD 4 ' ') = true →
      get_version_by_file_name isalnum fn none = .ok .VXDB) ∧
    (suffix fn = ['.', 'x', 'r', 'p'] →
      get_version_by_file_name isalnum fn none = .ok .V1114) ∧
    ((suffix fn).length = 4 → (suffix fn).take 3 = ['.', 'x', 'p'] →
      isalnum ((suffix fn).getD 3 ' ') = true →
      get_version_by_file_name isalnum fn none = .ok .V2215) ∧
    (¬ ((suffix fn).length = 5 ∧ (suffix fn).take 4 = ['.', 'x', 'd', 'b'] ∧
        isalnum ((suffix fn).getD 4 ' ') = true) →
      suffix fn ≠ ['.', 'x', 'r', 'p'] →
      ¬ ((suffix fn).length = 4 ∧ (suffix fn).take 3 = ['.', 'x', 'p'] ∧
        isalnum ((suffix fn).getD 3 ' ') = true) →
      get_version_by_file_name isalnum fn none = .error .unspecifiedDbFormat) ∧
    (isalnum 'a' = true →
      get_version_by_file_name isalnum "game.xdba".toList none = .ok .VXDB) ∧
    get_version_by_file_name isalnum "save.xrp".toList none = .ok .V1114 ∧
    (isalnum '3' = true →
      get_version_by_file_name isalnum "data.xp3".toList none = .ok .V2215) ∧
    get_version_by_file_name isalnum "data.unknown".toList none =
      .error .unspecifiedDbFormat := by
  refine ⟨fun h5 h4 ha => ?_, fun hx => ?_, fun h4 h3 ha => ?_, fun hg1 hg2 hg3 => ?_,
    fun ha => ?_, ?_, fun hb => ?_, ?_⟩
  · have hv : infer_version isalnum (suffix fn) = .VXDB := by
      rw [infer_version, if_pos ⟨h5, h4, ha⟩]
    rw [get_version_none_eq, hv]
    rfl
  · have hv : infer_version isalnum (suffix fn) = .V1114 := by
      rw [hx, infer_version, if_neg (fun h => absurd h.1 (by decide)), if_pos rfl]
    rw [get_version_none_eq, hv]
    rfl
  · have hg1 : ¬ ((suffix fn).length = 5 ∧ (suffix fn).take 4 = ['.', 'x', 'd', 'b'] ∧
        isalnum ((suffix fn).getD 4 ' ') = true) := by
      intro h
      omega
    have hg2 : suffix fn ≠ ['.', 'x', 'r', 'p'] := by
      intro h
      rw [h] at h3
      exact absurd h3 (by decide)
    have hv : infer_version isalnum (suffix fn) = .V2215 := by
      rw [infer_version, if_neg hg1, if_neg hg2, if_pos ⟨h4, h3, ha⟩]
    rw [get_version_none_eq, hv]
    rfl
  · have hv : infer_version isalnum (suffix fn) = .AUTO := by
      rw [infer_version, if_neg hg1, if_neg hg2, if_neg hg3]
    rw [get_version_none_eq, hv]
    rfl
  · have hv : infer_version isalnum (suffix ("game.xdba".toList)) = .VXDB := by
      rw [show suffix ("game.xdba".toList) = ['.', 'x', 'd', 'b', 'a'] from rfl,
        infer_version, if_pos ⟨by decide, by decide, ha⟩]
    rw [get_version_none_eq, hv]
    rfl
  · have hv : infer_version isalnum (suffix ("save.xrp".toList)) = .V1114 := by
      rw [show suffix ("save.xrp".toList) = ['.', 'x', 'r', 'p'] from rfl,
        infer_version, if_neg (fun h => absurd h.1 (by decide)), if_pos rfl]
    rw [get_version_none_eq, hv]
    rfl
  · have hv : infer_version isalnum (suffix ("data.xp3".toList)) = .V2215 := by
      rw [show suffix ("data.xp3".toList) = ['.', 'x', 'p', '3'] from rfl,
        infer_version, if_neg (fun h => absurd h.1 (by decide)),
        if_neg (by decide), if_pos ⟨by decide, by decide, hb⟩]
    rw [get_version_none_eq, hv]
    rfl
  · have hv : infer_version isalnum (suffix ("data.unknown".toList)) = .AUTO := by
      rw [show suffix ("data.unknown".toList) = ".unknown".toList from rfl,
        infer_version, if_neg (fun h => absurd h.1 (by decide)),
        if_neg (by decide), if_neg (fun h => absurd h.1 (by decide))]
    rw [get_version_none_eq, hv]
    rfl

/-- Witness for C6: instantiating the abstract `str.isalnum` predicate with
the ASCII classifier (which agrees with Python on the characters involved)
and discharging every hypothesis at the concrete file names `game.xdba` and
`data.xp3`. -/
theorem c6_version_inference_witness :
    get_version_by_file_name Char.isAlphanum "game.xdba".toList none = .ok .VXDB ∧
    get_version_by_file_name Char.isAlphanum "data.xp3".toList none = .ok .V2215 :=
  ⟨(c6_version_inference Char.isAlphanum "game.xdba".toList).1
      (by rfl) (by rfl) (by rfl),
   (c6_version_inference Char.isAlphanum "data.xp3".toList).2.2.2.2.2.2.1 (by rfl)⟩

end Claims

/-! ## Scrambler.py -/

namespace Scrambler

/-- `XRScramblerConfig`. -/
inductive XRScramblerConfig where
  | CC_RU | CC_WW
  deriving DecidableEq

namespace XRScrambler

/-- `XRScrambler.SEED_MULT`. -/
def SEED_MULT : Nat := 0x8088405

/-- `XRScrambler.SEED_RU`. -/
def SEED_RU : Nat := 0x131a9d3

/-- `XRScrambler.SEED0_RU`. -/
def SEED0_RU : Nat := 0x1329436

/-- `XRScrambler.SIZE_MULT_RU`. -/
def SIZE_MULT_RU : Nat := 8

/-- `XRScrambler.SEED_WW`. -/
def SEED_WW : Nat := 0x16eb2eb

/-- `XRScrambler.SEED0_WW`. -/
def SEED0_WW : Nat := 0x5bbc4b

/-- `XRScrambler.SIZE_MULT_WW`. -/
def SIZE_MULT_WW : Nat := 4

/-- `XRScrambler.SBOX_SIZE`. -/
def SBOX_SIZE : Nat := 256

/-- The correction applied after every `seed = (1 + seed * SEED_MULT) &
0xFFFFFFFF` step: when bit 31 of the masked value is set
(`if seed & 0x80000000:`), it is replaced by
`(seed & 0x7FFFFFFF) - 0x80000000`, a negative Python int. -/
def signFix (s : Nat) : Int :=
  if s &&& 0x80000000 ≠ 0 then ((s &&& 0x7FFFFFFF : Nat) : Int) - 0x80000000
  else (s : Int)

/-- One LCG step with the sign correction, as performed by `_init_sboxes` and
`decrypt`, where the incoming seed may already be negative:
`seed = (1 + seed * SEED_MULT) & 0xFFFFFFFF` (a bitwise and of a Python int
with a nonnegative mask is `Int.emod`), then the sign fix. -/
def lcgSigned (s : Int) : Int :=
  signFix ((1 + s * (SEED_MULT : Int)).emod (2 ^ 32)).toNat

/-- `(seed >> 24) & 0xff` on a Python int that may be negative: `>>` is
arithmetic shift, i.e. flooring division, and `& 0xff` is `emod 256`. -/
def keyByte (s : Int) : Nat :=
  ((s.fdiv (2 ^ 24)).emod 256).toNat

/-- Inner `while True` loop of `_init_sboxes`: step the LCG until the derived
byte `b` differs from `a`.  The loop has no syntactic bound, so it is driven
by fuel; on exhaustion the last stepped state and byte are returned even when
`b = a` (with the generous fuel used below this is unreachable, and no
theorem depends on it). -/
def pickB (a : Nat) : Nat → Int → Int × Nat
  | 0, s => (lcgSigned s, keyByte (lcgSigned s))
  | fuel + 1, s =>
    let s' := lcgSigned s
    let b := keyByte s'
    if a ≠ b then (s', b) else pickB a fuel s'

/-- The tuple swap `m_enc_sbox[a], m_enc_sbox[b] = m_enc_sbox[b],
m_enc_sbox[a]` (both right-hand sides read before either write). -/
def swapAt (l : List Nat) (a b : Nat) : List Nat :=
  (l.set a (l.getD b 0)).set b (l.getD a 0)

/-- Scramble loop of `_init_sboxes`: `size_mult * SBOX_SIZE` iterations (the
loop counter `i` is unused), each deriving `a` from one corrected LCG step,
then `b ≠ a` from the inner loop, and swapping the two sbox cells. -/
def scrambleLoop : Nat → Int → List Nat → List Nat
  | 0, _, enc => enc
  | n + 1, s, enc =>
    let s1 := lcgSigned s
    let a := keyByte s1
    let p := pickB a (2 ^ 32) s1
    scrambleLoop n p.1 (swapAt enc a p.2)

/-- Initial encryption sbox: `bytearray(b'0' * SBOX_SIZE)` (byte `'0'` = 48)
overwritten by `m_enc_sbox[i] = i & 0xff` for `i = 255, 254, .., 0`. -/
def encInit : List Nat :=
  (List.range SBOX_SIZE).reverse.foldl (fun l i => l.set i (i &&& 0xff))
    (List.replicate SBOX_SIZE 48)

/-- Decryption sbox built from the scrambled encryption sbox:
`m_dec_sbox[m_enc_sbox[i]] = i & 0xff` for `i = 0..255`, again over
`bytearray(b'0' * SBOX_SIZE)`. -/
def decFromEnc (enc : List Nat) : List Nat :=
  (List.range SBOX_SIZE).foldl (fun d i => d.set (enc.getD i 0) (i &&& 0xff))
    (List.replicate SBOX_SIZE 48)

/-- `_init_sboxes(seed, size_mult)`: the pair `(m_dec_sbox, m_enc_sbox)`. -/
def init_sboxes (seed size_mult : Nat) : List Nat × List Nat :=
  let enc := scrambleLoop (size_mult * SBOX_SIZE) (seed : Int) encInit
  (decFromEnc enc, enc)

/-- `m_seed` as set by `_init(config)`. -/
def m_seed : XRScramblerConfig → Nat
  | .CC_RU => SEED_RU
  | .CC_WW => SEED_WW

/-- The sboxes as set by `_init(config)`. -/
def sboxes : XRScramblerConfig → List Nat × List Nat
  | .CC_RU => init_sboxes SEED0_RU SIZE_MULT_RU
  | .CC_WW => init_sboxes SEED0_WW SIZE_MULT_WW

/-- `self.m_enc_sbox`. -/
def m_enc_sbox (c : XRScramblerConfig) : List Nat := (sboxes c).2

/-- `self.m_dec_sbox`. -/
def m_dec_sbox (c : XRScramblerConfig) : List Nat := (sboxes c).1

/-- Loop of `XRScrambler.decrypt`: for each input byte, one corrected LCG
step, then `dest[i] = m_dec_sbox[src[i] ^ ((seed >> 24) & 0xff)]`. -/
def decryptGo (dec_sbox : List Nat) : Int → List Nat → List Nat
  | _, [] => []
  | s, x :: xs =>
    let s' := lcgSigned s
    dec_sbox.getD (x ^^^ keyByte s') 0 :: decryptGo dec_sbox s' xs

/-- `XRScrambler.decrypt(src)` for a scrambler constructed from `config`. -/
def decrypt (config : XRScramblerConfig) (src : List Nat) : List Nat :=
  decryptGo (m_dec_sbox config) ((m_seed config : Nat) : Int) src

/-- Loop of `XRScrambler.encrypt`: `seed = 1 + seed * SEED_MULT` then
`seed &= 0xFFFFFFFF` with no sign fix, and
`dest[i] = m_enc_sbox[src[i]] ^ ((seed >> 24) & 0xff)`. -/
def encryptGo (enc_sbox : List Nat) : Nat → List Nat → List Nat
  | _, [] => []
  | s, x :: xs =>
    let s' := (1 + s * SEED_MULT) % 2 ^ 32
    (enc_sbox.getD x 0 ^^^ ((s' >>> 24) &&& 0xff)) :: encryptGo enc_sbox s' xs

/-- `XRScrambler.encrypt(src)` for a scrambler constructed from `config`. -/
def encrypt (config : XRScramblerConfig) (src : List Nat) : List Nat :=
  encryptGo (m_enc_sbox config) (m_seed config) src

/-- The keystream byte as derived inside `decrypt` from the masked 32-bit
state: sign fix first, then `(seed >> 24) & 0xff`. -/
def decrypt_key_byte (s : Nat) : Nat := keyByte (signFix s)

/-- The keystream byte as derived inside `encrypt` from the masked 32-bit
state: `(seed >> 24) & 0xff` directly. -/
def encrypt_key_byte (s : Nat) : Nat := (s >>> 24) &&& 0xff

/-- The sequence of keystream bytes consumed by `decrypt` from seed `s`. -/
def decrypt_keystream (s : Int) : Nat → List Nat
  | 0 => []
  | n + 1 =>
    let s' := lcgSigned s
    keyByte s' :: decrypt_keystream s' n

/-- The sequence of keystream bytes consumed by `encrypt` from seed `s`. -/
def encrypt_keystream (s : Nat) : Nat → List Nat
  | 0 => []
  | n + 1 =>
    let s' := (1 + s * SEED_MULT) % 2 ^ 32
    ((s' >>> 24) &&& 0xff) :: encrypt_keystream s' n

end XRScrambler

end Scrambler

namespace Scrambler.XRScrambler

/-- Bit 31 of a value below `2^32` is set iff the value is at least `2^31`. -/
theorem and_bit31_iff (n : Nat) (hn : n < 2 ^ 32) :
    (n &&& 0x80000000 ≠ 0) ↔ 2 ^ 31 ≤ n := by
  have h : (0x80000000 : Nat) = 2 ^ 31 := by norm_num
  rw [h, Nat.and_two_pow]
  cases htb : n.testBit 31
  · refine iff_of_false (by simp) ?_
    intro hge
    have hdiv : n / 2 ^ 31 = 1 := by omega
    rw [Nat.testBit_to_div_mod, hdiv] at htb
    simp at htb
  · exact iff_of_true (by simp) (Nat.testBit_implies_ge htb)

/-- On the high half of the 32-bit range the sign fix subtracts `2^32`. -/
theorem signFix_high (n : Nat) (hn : n < 2 ^ 32) (hh : 2 ^ 31 ≤ n) :
    signFix n = (n : Int) - 2 ^ 32 := by
  rw [signFix, if_pos ((and_bit31_iff n hn).mpr hh)]
  have h1 : n &&& 0x7FFFFFFF = n % 2 ^ 31 := by
    have h2 : (0x7FFFFFFF : Nat) = 2 ^ 31 - 1 := by norm_num
    rw [h2, Nat.and_pow_two_sub_one_eq_mod]
  rw [h1]
  push_cast
  omega

/-- On the low half of the 32-bit range the sign fix is the identity. -/
theorem signFix_low (n : Nat) (hl : n < 2 ^ 31) : signFix n = (n : Int) := by
  rw [signFix, if_neg]
  intro hne
  have h : (0x80000000 : Nat) = 2 ^ 31 := by norm_num
  rw [h, Nat.and_two_pow, Nat.testBit_lt_two_pow hl] at hne
  simp at hne

/-- The sign fix does not change the value modulo `2^32`. -/
theorem signFix_emod (n : Nat) (hn : n < 2 ^ 32) :
    (signFix n).emod (2 ^ 32) = n := by
  by_cases hh : 2 ^ 31 ≤ n
  · rw [signFix_high n hn hh]
    show ((n : Int) - 2 ^ 32) % 2 ^ 32 = (n : Int)
    omega
  · rw [signFix_low n (by omega)]
    show (n : Int) % 2 ^ 32 = (n : Int)
    omega

/-- The sign fix does not change the derived keystream byte: this is the
arithmetic heart of claim C10. -/
theorem keyByte_signFix (n : Nat) (hn : n < 2 ^ 32) :
    keyByte (signFix n) = (n >>> 24) &&& 0xff := by
  have hr : (n >>> 24) &&& 0xff = n / 2 ^ 24 % 256 := by
    rw [Nat.shiftRight_eq_div_pow]
    have h2 : (0xff : Nat) = 2 ^ 8 - 1 := by norm_num
    rw [h2, Nat.and_pow_two_sub_one_eq_mod]
  rw [hr, keyByte]
  by_cases hh : 2 ^ 31 ≤ n
  · rw [signFix_high n hn hh, Int.fdiv_eq_ediv _ (by norm_num)]
    show ((((n : Int) - 2 ^ 32) / 2 ^ 24) % 256).toNat = n / 2 ^ 24 % 256
    omega
  · rw [signFix_low n (by omega), Int.fdiv_eq_ediv _ (by norm_num)]
    show (((n : Int) / 2 ^ 24) % 256).toNat = n / 2 ^ 24 % 256
    omega

/-- Every keystream byte is a byte. -/
theorem keyByte_lt (s : Int) : keyByte s < 256 := by
  rw [keyByte]
  have h1 : (0 : Int) ≤ (s.fdiv (2 ^ 24)).emod 256 := Int.emod_nonneg _ (by norm_num)
  have h2 : (s.fdiv (2 ^ 24)).emod 256 < 256 := Int.emod_lt_of_pos _ (by norm_num)
  omega

/-- One corrected LCG step, related to the uncorrected step on the
nonnegative masked state: the states stay congruent modulo `2^32` and the
derived keystream bytes agree. -/
theorem lcgSigned_spec (s : Int) (se : Nat) (hse : se < 2 ^ 32)
    (hmod : s.emod (2 ^ 32) = se) :
    (lcgSigned s).emod (2 ^ 32) = ((1 + se * SEED_MULT) % 2 ^ 32 : Nat) ∧
    keyByte (lcgSigned s) = ((1 + se * SEED_MULT) % 2 ^ 32) >>> 24 &&& 0xff := by
  have htlt : (1 + se * SEED_MULT) % 2 ^ 32 < 2 ^ 32 := Nat.mod_lt _ (by norm_num)
  have hmod' : s % (2 ^ 32 : Int) = (se : Int) := hmod
  have hmeq : Int.ModEq (2 ^ 32) s (se : Int) := by
    show s % (2 ^ 32 : Int) = (se : Int) % 2 ^ 32
    rw [hmod']
    omega
  have hcong : (1 + s * (SEED_MULT : Int)) % 2 ^ 32 =
      (1 + (se : Int) * (SEED_MULT : Int)) % 2 ^ 32 :=
    Int.ModEq.add_left 1 (Int.ModEq.mul_right (SEED_MULT : Int) hmeq)
  have hcast : (1 + (se : Int) * (SEED_MULT : Int)) % 2 ^ 32 =
      (((1 + se * SEED_MULT) % 2 ^ 32 : Nat) : Int) := by
    push_cast
    ring_nf
  have hu : (1 + s * (SEED_MULT : Int)).emod (2 ^ 32) =
      (((1 + se * SEED_MULT) % 2 ^ 32 : Nat) : Int) := hcong.trans hcast
  have hsig : lcgSigned s = signFix ((1 + se * SEED_MULT) % 2 ^ 32) := by
    rw [lcgSigned, hu, Int.toNat_natCast]
  rw [hsig]
  exact ⟨signFix_emod _ htlt, keyByte_signFix _ htlt⟩

/-- Invariant of the encryption sbox under scrambling: 256 cells, every cell
a byte, and every byte present. -/
def sboxInv (l : List Nat) : Prop :=
  l.length = 256 ∧ (∀ v ∈ l, v < 256) ∧ (∀ y < 256, y ∈ l)

set_option maxRecDepth 4000 in
theorem encInit_eq : encInit = List.range 256 := by decide

theorem sboxInv_encInit : sboxInv encInit := by
  rw [encInit_eq]
  refine ⟨by simp, ?_, ?_⟩
  · intro v hv
    exact List.mem_range.mp hv
  · intro y hy
    exact List.mem_range.mpr hy

theorem swapAt_length (l : List Nat) (a b : Nat) :
    (swapAt l a b).length = l.length := by
  simp [swapAt]

theorem getD_mem (L : List Nat) (j : Nat) (h : j < L.length) : L.getD j 0 ∈ L := by
  rw [List.getD_eq_getElem L 0 h]
  exact List.getElem_mem _

theorem swapAt_getD_right (l : List Nat) (a b : Nat)
    (ha : a < l.length) (hb : b < l.length) :
    (swapAt l a b).getD b 0 = l.getD a 0 := by
  unfold swapAt
  have hL : ((l.set a (l.getD b 0)).set b (l.getD a 0)).length = l.length := by
    rw [List.length_set, List.length_set]
  rw [List.getD_eq_getElem _ 0 (by rw [hL]; omega), List.getElem_set_self]

theorem swapAt_getD_left (l : List Nat) (a b : Nat)
    (ha : a < l.length) (hb : b < l.length) (hab : a ≠ b) :
    (swapAt l a b).getD a 0 = l.getD b 0 := by
  unfold swapAt
  have hL : ((l.set a (l.getD b 0)).set b (l.getD a 0)).length = l.length := by
    rw [List.length_set, List.length_set]
  rw [List.getD_eq_getElem _ 0 (by rw [hL]; omega),
    List.getElem_set_ne (Ne.symm hab), List.getElem_set_self]

theorem swapAt_getD_other (l : List Nat) (a b i : Nat)
    (hi : i < l.length) (hia : i ≠ a) (hib : i ≠ b) :
    (swapAt l a b).getD i 0 = l.getD i 0 := by
  unfold swapAt
  have hL : ((l.set a (l.getD b 0)).set b (l.getD a 0)).length = l.length := by
    rw [List.length_set, List.length_set]
  rw [List.getD_eq_getElem _ 0 (by rw [hL]; omega),
    List.getElem_set_ne (Ne.symm hib), List.getElem_set_ne (Ne.symm hia),
    List.getD_eq_getElem l 0 hi]

theorem sboxInv_swapAt (l : List Nat) (hl : sboxInv l) (a b : Nat)
    (ha : a < 256) (hb : b < 256) : sboxInv (swapAt l a b) := by
  obtain ⟨hlen, hval, hmem⟩ := hl
  have ha' : a < l.length := by omega
  have hb' : b < l.length := by omega
  have hlen' : (swapAt l a b).length = 256 := by
    rw [swapAt_length, hlen]
  refine ⟨hlen', ?_, ?_⟩
  · intro v hv
    rcases List.mem_or_eq_of_mem_set hv with hv1 | rfl
    · rcases List.mem_or_eq_of_mem_set hv1 with hv2 | rfl
      · exact hval v hv2
      · exact hval _ (getD_mem l b hb')
    · exact hval _ (getD_mem l a ha')
  · intro y hy
    rcases List.mem_iff_getElem.mp (hmem y hy) with ⟨i, hi, hiy⟩
    have hiy' : l.getD i 0 = y := by
      rw [List.getD_eq_getElem _ 0 hi, hiy]
    by_cases hia : i = a
    · have hval' : (swapAt l a b).getD b 0 = y := by
        rw [swapAt_getD_right l a b ha' hb', ← hia, hiy']
      rw [← hval']
      exact getD_mem _ b (by rw [swapAt_length]; omega)
    · by_cases hib : i = b
      · by_cases hab : a = b
        · have hval' : (swapAt l a b).getD b 0 = y := by
            rw [swapAt_getD_right l a b ha' hb', hab, ← hib, hiy']
          rw [← hval']
          exact getD_mem _ b (by rw [swapAt_length]; omega)
        · have hval' : (swapAt l a b).getD a 0 = y := by
            rw [swapAt_getD_left l a b ha' hb' hab, ← hib, hiy']
          rw [← hval']
          exact getD_mem _ a (by rw [swapAt_length]; omega)
      · have hval' : (swapAt l a b).getD i 0 = y := by
          rw [swapAt_getD_other l a b i hi hia hib, hiy']
        rw [← hval']
        exact getD_mem _ i (by rw [swapAt_length]; omega)

theorem pickB_snd_lt (a fuel : Nat) (s : Int) : (pickB a fuel s).2 < 256 := by
  induction fuel generalizing s with
  | zero => exact keyByte_lt _
  | succ n ih =>
    rw [pickB]
    by_cases h : a ≠ keyByte (lcgSigned s)
    · simpa [h] using keyByte_lt (lcgSigned s)
    · simpa [h] using ih (lcgSigned s)

theorem sboxInv_scrambleLoop (n : Nat) (s : Int) (l : List Nat)
    (hl : sboxInv l) : sboxInv (scrambleLoop n s l) := by
  induction n generalizing s l with
  | zero => exact hl
  | succ n ih =>
    rw [scrambleLoop]
    exact ih _ _ (sboxInv_swapAt l hl _ _ (keyByte_lt _) (pickB_snd_lt _ _ _))

theorem nodup_of_sboxInv (l : List Nat) (hl : sboxInv l) : l.Nodup := by
  obtain ⟨hlen, hval, hmem⟩ := hl
  have hsub : List.range 256 ⊆ l := by
    intro x hx
    exact hmem x (List.mem_range.mp hx)
  have hsp : (List.range 256).Subperm l := (List.nodup_range 256).subperm hsub
  have hperm : List.Perm (List.range 256) l :=
    hsp.perm_of_length_le (by rw [hlen, List.length_range])
  exact hperm.nodup_iff.mp (List.nodup_range 256)

theorem foldl_set_length (L : List Nat) (f g : Nat → Nat) (init : List Nat) :
    (L.foldl (fun d i => d.set (f i) (g i)) init).length = init.length := by
  induction L generalizing init with
  | nil => rfl
  | cons x xs ih =>
    rw [List.foldl_cons, ih, List.length_set]

theorem decFromEnc_getD (enc : List Nat) (hlen : enc.length = 256)
    (hval : ∀ v ∈ enc, v < 256) (hnd : enc.Nodup) :
    ∀ x < 256, (decFromEnc enc).getD (enc.getD x 0) 0 = x := by
  have key : ∀ n, n ≤ 256 → ∀ x < n,
      ((List.range n).foldl (fun d i => d.set (enc.getD i 0) (i &&& 0xff))
        (List.replicate 256 48)).getD (enc.getD x 0) 0 = x &&& 0xff := by
    intro n
    induction n with
    | zero => omega
    | succ n ih =>
      intro hn x hx
      rw [List.range_succ, List.foldl_append, List.foldl_cons, List.foldl_nil]
      have hfoldlen :
          ((List.range n).foldl (fun d i => d.set (enc.getD i 0) (i &&& 0xff))
            (List.replicate 256 48)).length = 256 := by
        rw [foldl_set_length (List.range n) (fun i => enc.getD i 0)
          (fun i => i &&& 0xff) (List.replicate 256 48), List.length_replicate]
      have hxe : x < enc.length := by omega
      have hencx : enc.getD x 0 < 256 := by
        rw [List.getD_eq_getElem enc 0 hxe]
        exact hval _ (List.getElem_mem _)
      by_cases hxn : x = n
      · subst hxn
        rw [List.getD_eq_getElem _ 0 (by rw [List.length_set, hfoldlen]; omega),
          List.getElem_set_self]
      · have hne : enc.getD x 0 ≠ enc.getD n 0 := by
          intro heq
          have hne' : n < enc.length := by omega
          rw [List.getD_eq_getElem enc 0 hxe, List.getD_eq_getElem enc 0 hne'] at heq
          exact hxn ((List.Nodup.getElem_inj_iff hnd).mp heq)
        rw [List.getD_eq_getElem _ 0 (by rw [List.length_set, hfoldlen]; omega),
          List.getElem_set_ne (Ne.symm hne),
          ← List.getD_eq_getElem _ 0 (by rw [hfoldlen]; omega)]
        exact ih (by omega) x (by omega)
  intro x hx
  have h := key 256 (by omega) x hx
  rw [decFromEnc]
  rw [show SBOX_SIZE = 256 from rfl, h]
  have : (0xff : Nat) = 2 ^ 8 - 1 := by norm_num
  rw [this, Nat.and_pow_two_sub_one_eq_mod]
  omega

/-- The sboxes produced by `_init_sboxes` are mutually inverse byte
permutations: `m_dec_sbox[m_enc_sbox[x]] = x` for every byte `x`, and
`m_enc_sbox[x]` is a byte. -/
theorem init_sboxes_inverse (seed size_mult : Nat) :
    ∀ x < 256, ((init_sboxes seed size_mult).2).getD x 0 < 256 ∧
      ((init_sboxes seed size_mult).1).getD
        (((init_sboxes seed size_mult).2).getD x 0) 0 = x := by
  intro x hx
  simp only [init_sboxes]
  have hinv : sboxInv (scrambleLoop (size_mult * SBOX_SIZE) (seed : Int) encInit) :=
    sboxInv_scrambleLoop _ _ encInit sboxInv_encInit
  obtain ⟨hlen, hval, hmem⟩ := hinv
  have hnd := nodup_of_sboxInv _ ⟨hlen, hval, hmem⟩
  constructor
  · rw [List.getD_eq_getElem _ 0 (by omega)]
    exact hval _ (List.getElem_mem _)
  · exact decFromEnc_getD _ hlen hval hnd x hx

/-- The two sboxes of either profile are mutually inverse byte permutations:
`m_dec_sbox[m_enc_sbox[x]] = x` for every byte `x`, and `m_enc_sbox[x]` is a
byte. -/
theorem sbox_inverse (c : XRScramblerConfig) :
    ∀ x < 256, (m_enc_sbox c).getD x 0 < 256 ∧
      (m_dec_sbox c).getD ((m_enc_sbox c).getD x 0) 0 = x := by
  cases c
  · exact init_sboxes_inverse SEED0_RU SIZE_MULT_RU
  · exact init_sboxes_inverse SEED0_WW SIZE_MULT_WW

/-- Decryption inverts encryption byte by byte, for any pair of mutually
inverse sboxes, any seed congruence between the signed decrypt state and the
masked encrypt state, and any byte list. -/
theorem roundtrip_go (dec enc : List Nat)
    (hinv : ∀ x < 256, enc.getD x 0 < 256 ∧ dec.getD (enc.getD x 0) 0 = x) :
    ∀ (xs : List Nat), (∀ b ∈ xs, b < 256) → ∀ (s : Int) (se : Nat),
      se < 2 ^ 32 → s.emod (2 ^ 32) = se →
      decryptGo dec s (encryptGo enc se xs) = xs := by
  intro xs
  induction xs with
  | nil =>
    intro _ s se _ _
    rfl
  | cons x xs ih =>
    intro hb s se hse hmod
    obtain ⟨hkm, hkb⟩ := lcgSigned_spec s se hse hmod
    simp only [encryptGo, decryptGo]
    rw [hkb, Nat.xor_cancel_right,
      (hinv x (hb x (List.mem_cons_self _ _))).2,
      ih (fun b hb' => hb b (List.mem_cons_of_mem _ hb')) (lcgSigned s)
        ((1 + se * SEED_MULT) % 2 ^ 32) (Nat.mod_lt _ (by norm_num)) hkm]

end Scrambler.XRScrambler

namespace Claims

open Scrambler Scrambler.XRScrambler

/-- Claim C1: for each scrambler profile and every byte sequence `x`,
`decrypt(encrypt(x, profile), profile) = x`. -/
theorem c1_scrambler_roundtrip (config : XRScramblerConfig) (x : List Nat)
    (h : ∀ b ∈ x, b < 256) :
    Scrambler.XRScrambler.decrypt config (Scrambler.XRScrambler.encrypt config x) = x := by
  rw [Scrambler.XRScrambler.decrypt, Scrambler.XRScrambler.encrypt]
  have hlt : m_seed config < 2 ^ 32 := by cases config <;> decide
  have hseed : ((m_seed config : Nat) : Int).emod (2 ^ 32) = m_seed config := by
    show ((m_seed config : Nat) : Int) % 2 ^ 32 = (m_seed config : Nat)
    omega
  exact roundtrip_go _ _ (sbox_inverse config) x h _ _ hlt hseed

/-- Witness for C1: the concrete RU-profile roundtrip on the three-byte
message `[65, 255, 0]`. -/
theorem c1_scrambler_roundtrip_witness :
    (∀ b ∈ [65, 255, 0], b < 256) ∧
    Scrambler.XRScrambler.decrypt .CC_RU
      (Scrambler.XRScrambler.encrypt .CC_RU [65, 255, 0]) = [65, 255, 0] :=
  ⟨by decide, c1_scrambler_roundtrip .CC_RU [65, 255, 0] (by decide)⟩

/-- Claim C10: for every 32-bit LCG state, the keystream byte derived in
`decrypt` (sign fix first, then `(seed >> 24) & 0xff`) equals the keystream
byte `(seed >> 24) & 0xff` derived in `encrypt`; hence starting from the same
seed the two routines consume identical keystream byte sequences of every
length. -/
theorem c10_keystream_equiv :
    (∀ s : Nat, s < 2 ^ 32 → decrypt_key_byte s = encrypt_key_byte s) ∧
    (∀ s0 : Nat, s0 < 2 ^ 32 → ∀ n,
      decrypt_keystream (s0 : Int) n = encrypt_keystream s0 n) := by
  constructor
  · intro s hs
    rw [decrypt_key_byte, encrypt_key_byte]
    exact keyByte_signFix s hs
  · have key : ∀ (n : Nat) (s : Int) (se : Nat), se < 2 ^ 32 →
        s.emod (2 ^ 32) = se → decrypt_keystream s n = encrypt_keystream se n := by
      intro n
      induction n with
      | zero =>
        intro s se _ _
        rfl
      | succ n ih =>
        intro s se hse hmod
        obtain ⟨hkm, hkb⟩ := lcgSigned_spec s se hse hmod
        simp only [decrypt_keystream, encrypt_keystream]
        rw [hkb, ih (lcgSigned s) _ (Nat.mod_lt _ (by norm_num)) hkm]
    intro s0 hs0 n
    refine key n (s0 : Int) s0 hs0 ?_
    show ((s0 : Nat) : Int) % 2 ^ 32 = (s0 : Nat)
    omega

/-- Witness for C10: a concrete high state (bit 31 set) yields the same byte
on both sides, and the first three RU keystream bytes agree. -/
theorem c10_keystream_equiv_witness :
    decrypt_key_byte 0xdeadbeef = encrypt_key_byte 0xdeadbeef ∧
    decrypt_keystream (SEED_RU : Int) 3 = encrypt_keystream SEED_RU 3 :=
  ⟨c10_keystream_equiv.1 0xdeadbeef (by decide),
   c10_keystream_equiv.2 SEED_RU (by decide) 3⟩

end Claims

/-! ## LzHuf.py

The adaptive Lempel-Ziv-Huffman decoder.  The decoder state is split by
concern — bit reader, Huffman tree, output buffer — mirroring the `self.*`
attribute groups of the class.  The tree walk of `DecodeChar`, the node
update loop of `update` and the outer decoding loop have no syntactic bound,
so they are driven by a fuel parameter; `none` signals fuel exhaustion.
`Decode` is modelled for a freshly constructed `LzHuf` instance, which is how
every call site of the repository uses it.  List reads out of range yield 0
where CPython would raise `IndexError`; the shapes of the tables keep all
accesses in range in every reachable state. -/

namespace LzHuf

/-- `N`: size of the LZ77 ring buffer. -/
def N : Nat := 4096

/-- `F`: maximum match length. -/
def F : Nat := 60

/-- `THRESHOLD`. -/
def THRESHOLD : Nat := 2

/-- `MAX_FREQ`. -/
def MAX_FREQ : Nat := 0x4000

/-- `N_CHAR = 256 - THRESHOLD + F` (= 314). -/
def N_CHAR : Nat := 256 - THRESHOLD + F

/-- `T = N_CHAR * 2 - 1` (= 627). -/
def T : Nat := N_CHAR * 2 - 1

/-- `R = T - 1` (= 626). -/
def R : Nat := T - 1

/-- The `d_code` table of `__init__` (256 bytes), written as runs. -/
def d_code : List Nat :=
  List.replicate 32 0x00 ++ List.replicate 16 0x01 ++ List.replicate 16 0x02 ++
  List.replicate 16 0x03 ++ List.replicate 8 0x04 ++ List.replicate 8 0x05 ++
  List.replicate 8 0x06 ++ List.replicate 8 0x07 ++ List.replicate 8 0x08 ++
  List.replicate 8 0x09 ++ List.replicate 8 0x0A ++ List.replicate 8 0x0B ++
  List.replicate 4 0x0C ++ List.replicate 4 0x0D ++ List.replicate 4 0x0E ++
  List.replicate 4 0x0F ++ List.replicate 4 0x10 ++ List.replicate 4 0x11 ++
  List.replicate 4 0x12 ++ List.replicate 4 0x13 ++ List.replicate 4 0x14 ++
  List.replicate 4 0x15 ++ List.replicate 4 0x16 ++ List.replicate 4 0x17 ++
  List.replicate 2 0x18 ++ List.replicate 2 0x19 ++ List.replicate 2 0x1A ++
  List.replicate 2 0x1B ++ List.replicate 2 0x1C ++ List.replicate 2 0x1D ++
  List.replicate 2 0x1E ++ List.replicate 2 0x1F ++ List.replicate 2 0x20 ++
  List.replicate 2 0x21 ++ List.replicate 2 0x22 ++ List.replicate 2 0x23 ++
  List.replicate 2 0x24 ++ List.replicate 2 0x25 ++ List.replicate 2 0x26 ++
  List.replicate 2 0x27 ++ List.replicate 2 0x28 ++ List.replicate 2 0x29 ++
  List.replicate 2 0x2A ++ List.replicate 2 0x2B ++ List.replicate 2 0x2C ++
  List.replicate 2 0x2D ++ List.replicate 2 0x2E ++ List.replicate 2 0x2F ++
  [0x30, 0x31, 0x32, 0x33, 0x34, 0x35, 0x36, 0x37,
   0x38, 0x39, 0x3A, 0x3B, 0x3C, 0x3D, 0x3E, 0x3F]

/-- The `d_len` table of `__init__` (256 bytes), written as runs. -/
def d_len : List Nat :=
  List.replicate 32 3 ++ List.replicate 48 4 ++ List.replicate 64 5 ++
  List.replicate 48 6 ++ List.replicate 48 7 ++ List.replicate 16 8

/-- Bit-reader slice of the decoder state: `getbuf`, `getlen`, `m_src`,
`m_src_pos`, `m_src_limit`. -/
structure BitRd where
  getbuf : Nat
  getlen : Nat
  src : List Nat
  src_pos : Nat
  src_limit : Nat

/-- `LzHuf.getc`: next source byte and new position, or `-1` at the limit. -/
def getc (b : BitRd) : Int × Nat :=
  if b.src_pos < b.src_limit then ((b.src.getD b.src_pos 0 : Int), b.src_pos + 1)
  else (-1, b.src_pos)

/-- Refill loop of `GetBit`: `while getlen <= 8`, read a byte (0 past the
end), or it into `getbuf` at `8 - getlen`, mask `getbuf` to 32 bits, and add
8 to `getlen`. -/
def fillBit (b : BitRd) : BitRd :=
  if h : b.getlen ≤ 8 then
    let p := getc b
    let i : Nat := if p.1 < 0 then 0 else p.1.toNat
    fillBit { b with
      src_pos := p.2
      getbuf := (b.getbuf ||| (i <<< (8 - b.getlen))) &&& 0xFFFFFFFF
      getlen := b.getlen + 8 }
  else b
termination_by 9 - b.getlen
decreasing_by
  simp_wf
  omega

/-- `LzHuf.GetBit`: refill, take the top bit of the signed 32-bit view of
`getbuf` (`(i >> 15) & 1` after the sign correction), shift `getbuf` left by
one (masked), and decrement `getlen`. -/
def GetBit (b : BitRd) : Nat × BitRd :=
  let b := fillBit b
  let i := b.getbuf
  let iS : Int :=
    if i &&& 0x80000000 ≠ 0 then ((i &&& 0x7FFFFFFF : Nat) : Int) - 0x80000000
    else (i : Int)
  (((iS.fdiv (2 ^ 15)).emod 2).toNat,
   { b with getbuf := (i <<< 1) &&& 0xFFFFFFFF, getlen := b.getlen - 1 })

/-- Refill loop of `GetByte`: like `fillBit` but — as in the source — without
masking `getbuf` to 32 bits. -/
def fillByte (b : BitRd) : BitRd :=
  if h : b.getlen ≤ 8 then
    let p := getc b
    let i : Nat := if p.1 < 0 then 0 else p.1.toNat
    fillByte { b with
      src_pos := p.2
      getbuf := b.getbuf ||| (i <<< (8 - b.getlen))
      getlen := b.getlen + 8 }
  else b
termination_by 9 - b.getlen
decreasing_by
  simp_wf
  omega

/-- `LzHuf.GetByte`: refill, return `(getbuf & 0xff00) >> 8`, shift `getbuf`
left by 8 (unmasked) and decrement `getlen` by 8. -/
def GetByte (b : BitRd) : Nat × BitRd :=
  let b := fillByte b
  let i := b.getbuf
  ((i &&& 0xff00) >>> 8, { b with getbuf := i <<< 8, getlen := b.getlen - 8 })

/-- Huffman tree slice of the decoder state: `freq`, `son`, `prnt`. -/
structure Tree where
  freq : List Nat
  son : List Nat
  prnt : List Nat

/-- The `__init__` arrays: `freq = [0]*(T+1)`, `son = [0]*T`,
`prnt = [0]*(T+N_CHAR)`. -/
def initTree : Tree :=
  ⟨List.replicate (T + 1) 0, List.replicate T 0, List.replicate (T + N_CHAR) 0⟩

/-- `LzHuf.StartHuff` on the `__init__` arrays: leaves `0..N_CHAR-1` with
frequency 1, internal nodes `N_CHAR..R` summing consecutive pairs, the
`freq[T] = 0xffff` sentinel and `prnt[R] = 0`. -/
def StartHuff : Tree :=
  let t1 := (List.range N_CHAR).foldl (fun (t : Tree) i =>
      ⟨t.freq.set i 1, t.son.set i (i + T), t.prnt.set (i + T) i⟩) initTree
  let t2 := ((List.range (R + 1 - N_CHAR)).foldl (fun (st : Nat × Nat × Tree) _ =>
      let i := st.1
      let j := st.2.1
      let t := st.2.2
      let f := t.freq.getD i 0 + t.freq.getD (i + 1) 0
      (i + 2, j + 1,
        ⟨t.freq.set j f, t.son.set j i, (t.prnt.set i j).set (i + 1) j⟩))
    (0, N_CHAR, t1)).2.2
  ⟨t2.freq.set T 0xffff, t2.son, t2.prnt.set R 0⟩

/-- The insertion-point search of `reconst`: `k = j - 1;
while f < freq[k]: k -= 1; k += 1`, by structural descent on `k` (the source
would fall through to Python's negative indexing at `k = -1`; that state is
unreachable because `freq[0]` never exceeds an inserted sum). -/
def findK (freq : List Nat) (f : Nat) : Nat → Nat
  | 0 => if f < freq.getD 0 0 then 0 else 1
  | k + 1 => if f < freq.getD (k + 1) 0 then findK freq f k else k + 2

/-- `LzHuf.reconst`: collect the leaves into the low half halving their
frequencies, rebuild the internal nodes by insertion into the
frequency-sorted prefix (shifting `freq` and `son` up with the
`range(j, k, -1)` loops), then reconnect all `prnt` links. -/
def reconst (t0 : Tree) : Tree :=
  let p1 := (List.range T).foldl (fun (st : Nat × Tree) i =>
      let j := st.1
      let t := st.2
      if t.son.getD i 0 ≥ T then
        (j + 1, ⟨t.freq.set j ((t.freq.getD i 0 + 1) / 2),
                 t.son.set j (t.son.getD i 0), t.prnt⟩)
      else st) (0, t0)
  let ta := p1.2
  let p2 := (List.range (T - N_CHAR)).foldl (fun (st : Nat × Nat × Tree) _ =>
      let i := st.1
      let j := st.2.1
      let t := st.2.2
      let k := i + 1
      let f := t.freq.getD i 0 + t.freq.getD k 0
      let freq := t.freq.set j f
      let k2 := findK freq f (j - 1)
      let freq := ((List.range' (k2 + 1) (j - k2)).reverse).foldl
          (fun fr idx => fr.set idx (fr.getD (idx - 1) 0)) freq
      let freq := freq.set k2 f
      let son := ((List.range' (k2 + 1) (j - k2)).reverse).foldl
          (fun so idx => so.set idx (so.getD (idx - 1) 0)) t.son
      let son := son.set k2 i
      (i + 2, j + 1, ⟨freq, son, t.prnt⟩)) (0, N_CHAR, ta)
  let tb := p2.2.2
  let prnt := (List.range T).foldl (fun pr i =>
      let k := tb.son.getD i 0
      if k ≥ T then pr.set k i
      else (pr.set k i).set (k + 1) i) tb.prnt
  ⟨tb.freq, tb.son, prnt⟩

/-- The inner slide of `update`: `while k > freq[l + 1]: l += 1`, with fuel. -/
def findL (freq : List Nat) (k : Nat) : Nat → Nat → Option Nat
  | 0, _ => none
  | fuel + 1, l =>
    if k > freq.getD (l + 1) 0 then findL freq k fuel (l + 1) else some l

/-- The `while True` body of `update`: increment `freq[c]`, swap node `c`
with the rightmost node `l` of smaller frequency when the order is
disturbed, then climb to the parent until the root. -/
def updateLoop : Nat → Nat → Tree → Option Tree
  | 0, _, _ => none
  | fuel + 1, c, t0 =>
    let k := t0.freq.getD c 0 + 1
    let t : Tree := ⟨t0.freq.set c k, t0.son, t0.prnt⟩
    let step : Option (Nat × Tree) :=
      if k > t.freq.getD (c + 1) 0 then
        match findL t.freq k fuel (c + 1) with
        | none => none
        | some l =>
          let freq := (t.freq.set c (t.freq.getD l 0)).set l k
          let i := t.son.getD c 0
          let prnt := t.prnt.set i l
          let prnt := if i < T then prnt.set (i + 1) l else prnt
          let j := t.son.getD l 0
          let son := t.son.set l i
          let prnt := prnt.set j c
          let prnt := if j < T then prnt.set (j + 1) c else prnt
          let son := son.set c j
          some (l, ⟨freq, son, prnt⟩)
      else some (c, t)
    match step with
    | none => none
    | some (c1, t1) =>
      let c2 := t1.prnt.getD c1 0
      if c2 = 0 then some t1 else updateLoop fuel c2 t1

/-- `LzHuf.update(c)`: `reconst` when the root frequency reaches `MAX_FREQ`,
then the climb starting from `prnt[c + T]`. -/
def update (fuel c : Nat) (t : Tree) : Option Tree :=
  let t := if t.freq.getD R 0 == MAX_FREQ then reconst t else t
  updateLoop fuel (t.prnt.getD (c + T) 0) t

/-- Tree walk of `DecodeChar`: `while c < T: c += GetBit(); c = son[c]`. -/
def walk (t : Tree) : Nat → Nat → BitRd → Option (Nat × BitRd)
  | 0, c, br => if c < T then none else some (c, br)
  | fuel + 1, c, br =>
    if c < T then
      let p := GetBit br
      walk t fuel (t.son.getD (c + p.1) 0) p.2
    else some (c, br)

/-- `LzHuf.DecodeChar`: walk from `son[R]` to a leaf, subtract `T`, and
`update` the tree. -/
def DecodeChar (fuel : Nat) (t : Tree) (br : BitRd) :
    Option (Nat × Tree × BitRd) :=
  match walk t fuel (t.son.getD R 0) br with
  | none => none
  | some (c0, br) =>
    let c := c0 - T
    match update fuel c t with
    | none => none
    | some t => some (c, t, br)

/-- `LzHuf.DecodePosition`: one `GetByte` recovers the upper 6 bits through
`d_code`/`d_len`, then `d_len[i] - 2` single bits are read verbatim. -/
def DecodePosition (br : BitRd) : Nat × BitRd :=
  let p := GetByte br
  let i := p.1
  let c := (d_code.getD i 0) <<< 6
  let j := (d_len.getD i 0) - 2
  let q := (List.range j).foldl (fun (st : Nat × BitRd) _ =>
      let g := GetBit st.2
      ((st.1 <<< 1) + g.1, g.2)) (i, p.2)
  (c ||| (q.1 &&& 0x3f), q.2)

/-- Output slice of the decoder state: `m_dest`, `m_dest_pos`,
`m_dest_limit`. -/
structure Out where
  dest : List Nat
  dest_pos : Nat
  dest_limit : Nat

/-- `LzHuf.putc`: when the position reaches the limit, double the buffer
(`new_dest = bytearray(2 * limit); new_dest[:limit] = dest`), then store the
byte and advance. -/
def putc (o : Out) (c : Nat) : Out :=
  let o1 := if o.dest_pos ≥ o.dest_limit then
      { dest := o.dest ++ List.replicate (2 * o.dest_limit - o.dest_limit) 0,
        dest_pos := o.dest_pos, dest_limit := 2 * o.dest_limit }
    else o
  { o1 with dest := o1.dest.set o1.dest_pos c, dest_pos := o1.dest_pos + 1 }

/-- The full decoder state of a `Decode` run. -/
structure DecSt where
  br : BitRd
  tree : Tree
  out : Out
  text_buf : List Nat
  r : Nat
  count : Nat
  textsize : Nat

/-- One iteration of the match-replay loop `for k in range(j)` of `Decode`:
read `text_buf[(i + k) & (N - 1)]`, `putc` it, store it at `r`, advance `r`
in the ring and increment `count`.  The accumulator carries
`(m_dest state, text_buf, r, count)`. -/
def copyStep (i : Nat) (acc : Out × List Nat × Nat × Nat) (k : Nat) :
    Out × List Nat × Nat × Nat :=
  let ch := acc.2.1.getD ((i + k) &&& (N - 1)) 0
  (putc acc.1 ch, acc.2.1.set acc.2.2.1 ch,
   (acc.2.2.1 + 1) &&& (N - 1), acc.2.2.2 + 1)

/-- The main loop of `Decode`: while `count < textsize`, decode a character;
a literal (`c < 256`) is emitted and stored in the ring buffer; a match code
replays `c - 255 + THRESHOLD` bytes from position
`(r - DecodePosition() - 1) & (N - 1)` (computed on Python ints, hence
`Int.emod` for the possibly negative difference). -/
def decodeLoop : Nat → DecSt → Option DecSt
  | 0, st => if st.count < st.textsize then none else some st
  | fuel + 1, st =>
    if st.count < st.textsize then
      match DecodeChar (fuel + 1) st.tree st.br with
      | none => none
      | some (c, tree, br) =>
        if c < 256 then
          decodeLoop fuel { br := br
                            tree := tree
                            out := putc st.out c
                            text_buf := st.text_buf.set st.r c
                            r := (st.r + 1) &&& (N - 1)
                            count := st.count + 1
                            textsize := st.textsize }
        else
          let p := DecodePosition br
          let i := (((st.r : Int) - p.1 - 1).emod (N : Int)).toNat
          let j := c - 255 + THRESHOLD
          let res := (List.range j).foldl (copyStep i)
              (st.out, st.text_buf, st.r, st.count)
          decodeLoop fuel { br := p.2
                            tree := tree
                            out := res.1
                            text_buf := res.2.1
                            r := res.2.2.1
                            count := res.2.2.2
                            textsize := st.textsize }
    else some st

/-- `int.from_bytes(code[0:4], byteorder='little')`. -/
def textsize_of (code : List Nat) : Nat :=
  code.getD 0 0 + 256 * code.getD 1 0 + 65536 * code.getD 2 0 +
    16777216 * code.getD 3 0

/-- `self.text_buf` as left by `__init__`: `[0] * (N + F - 1)`. -/
def text_buf_init : List Nat := List.replicate (N + F - 1) 0

/-- The ring-buffer pre-fill of `Decode`:
`for i in range(N - F): text_buf[i] = ord(' ')`. -/
def prefill (tb : List Nat) : List Nat :=
  (List.range (N - F)).foldl (fun l i => l.set i 32) tb

/-- `LzHuf.Decode(code)` on a fresh instance: fewer than 4 input bytes raise
`WrongDataFormat`; otherwise the little-endian u32 header fixes `textsize`,
the state is initialised (`m_dest = bytearray(textsize)`, source cursor at 4,
tree from `StartHuff`, ring buffer pre-filled, `r = N - F`) and the main loop
runs; on success the result is `m_dest[:textsize]`. -/
def Decode (fuel : Nat) (code : List Nat) : Except PyErr (Option (List Nat)) :=
  if code.length < 4 then .error .wrongDataFormat
  else
    let textsize := textsize_of code
    let st : DecSt := {
      br := { getbuf := 0, getlen := 0, src := code, src_pos := 4, src_limit := code.length }
      tree := StartHuff
      out := { dest := List.replicate textsize 0, dest_pos := 0, dest_limit := textsize }
      text_buf := prefill text_buf_init
      r := N - F
      count := 0
      textsize := textsize }
    match decodeLoop fuel st with
    | none => .ok none
    | some st => .ok (some (st.out.dest.take st.textsize))

theorem putc_inv (o : Out) (c : Nat) (h : o.dest.length = o.dest_limit) :
    (putc o c).dest.length = (putc o c).dest_limit ∧
    o.dest_limit ≤ (putc o c).dest_limit := by
  rw [putc]
  by_cases hge : o.dest_pos ≥ o.dest_limit
  · simp only [if_pos hge]
    refine ⟨?_, by omega⟩
    show ((o.dest ++ List.replicate (2 * o.dest_limit - o.dest_limit) 0).set
        o.dest_pos c).length = 2 * o.dest_limit
    rw [List.length_set, List.length_append, List.length_replicate, h]
    omega
  · simp only [if_neg hge]
    refine ⟨?_, le_refl _⟩
    show (o.dest.set o.dest_pos c).length = o.dest_limit
    rw [List.length_set, h]

theorem foldl_copyStep_inv (i : Nat) (L : List Nat) :
    ∀ (o : Out) (tb : List Nat) (r0 c0 : Nat),
      o.dest.length = o.dest_limit →
      (L.foldl (copyStep i) (o, tb, r0, c0)).1.dest.length =
          (L.foldl (copyStep i) (o, tb, r0, c0)).1.dest_limit ∧
        o.dest_limit ≤ (L.foldl (copyStep i) (o, tb, r0, c0)).1.dest_limit := by
  induction L with
  | nil => exact fun o tb r0 c0 h => ⟨h, le_refl _⟩
  | cons x xs ih =>
    intro o tb r0 c0 h
    rw [List.foldl_cons]
    obtain ⟨h1, h2⟩ := putc_inv o (tb.getD ((i + x) &&& (N - 1)) 0) h
    obtain ⟨h3, h4⟩ := ih (putc o (tb.getD ((i + x) &&& (N - 1)) 0))
      (tb.set r0 (tb.getD ((i + x) &&& (N - 1)) 0)) ((r0 + 1) &&& (N - 1))
      (c0 + 1) h1
    exact ⟨h3, le_trans h2 h4⟩

set_option maxRecDepth 8000 in
/-- Through any successful run of the main loop, `textsize` is unchanged, the
output buffer length always equals its limit, and the limit never drops below
`textsize`. -/
theorem decodeLoop_inv (fuel : Nat) :
    ∀ st st' : DecSt, decodeLoop fuel st = some st' →
      st.out.dest.length = st.out.dest_limit →
      st.textsize ≤ st.out.dest_limit →
      st'.textsize = st.textsize ∧
      st'.out.dest.length = st'.out.dest_limit ∧
      st'.textsize ≤ st'.out.dest_limit := by
  induction fuel with
  | zero =>
    intro st st' heq h1 h2
    rw [decodeLoop] at heq
    split at heq
    · exact absurd heq (by simp)
    · rw [Option.some.injEq] at heq
      subst heq
      exact ⟨rfl, h1, h2⟩
  | succ fuel ih =>
    intro st st' heq h1 h2
    rw [decodeLoop] at heq
    split at heq
    · split at heq
      · exact absurd heq (by simp)
      · next c tree br hdc =>
        split at heq
        · obtain ⟨hp1, hp2⟩ := putc_inv st.out c h1
          obtain ⟨e1, e2, e3⟩ := ih _ st' heq hp1 (le_trans h2 hp2)
          exact ⟨e1, e2, e3.trans_eq rfl⟩
        · obtain ⟨hf1, hf2⟩ := foldl_copyStep_inv
            ((((st.r : Int) - (DecodePosition br).1 - 1).emod (N : Int)).toNat)
            (List.range (c - 255 + THRESHOLD))
            st.out st.text_buf st.r st.count h1
          obtain ⟨e1, e2, e3⟩ := ih _ st' heq hf1 (le_trans h2 hf2)
          exact ⟨e1, e2, e3⟩
    · rw [Option.some.injEq] at heq
      subst heq
      exact ⟨rfl, h1, h2⟩

theorem getD_set_ne (l : List Nat) (j v i : Nat) (hij : i ≠ j) :
    (l.set j v).getD i 0 = l.getD i 0 := by
  by_cases hi : i < l.length
  · rw [List.getD_eq_getElem _ 0 (by rw [List.length_set]; exact hi),
      List.getElem_set_ne (Ne.symm hij), List.getD_eq_getElem _ 0 hi]
  · rw [List.getD_eq_default _ _ (by rw [List.length_set]; omega),
      List.getD_eq_default _ _ (by omega)]

theorem getD_set_self (l : List Nat) (j v : Nat) (hj : j < l.length) :
    (l.set j v).getD j 0 = v := by
  rw [List.getD_eq_getElem _ 0 (by rw [List.length_set]; exact hj),
    List.getElem_set_self]

theorem prefill_getD_ge (tb : List Nat) (i : Nat) (hge : N - F ≤ i) :
    (prefill tb).getD i 0 = tb.getD i 0 := by
  rw [prefill]
  have key : ∀ n, n ≤ i →
      ((List.range n).foldl (fun l j => l.set j 32) tb).getD i 0 = tb.getD i 0 := by
    intro n
    induction n with
    | zero => intro _; rfl
    | succ n ih =>
      intro h
      rw [List.range_succ, List.foldl_append, List.foldl_cons, List.foldl_nil,
        getD_set_ne _ _ _ _ (by omega)]
      exact ih (by omega)
  exact key (N - F) hge

theorem prefill_getD_lt (tb : List Nat) (htb : N - F ≤ tb.length) (i : Nat)
    (hlt : i < N - F) : (prefill tb).getD i 0 = 32 := by
  rw [prefill]
  have key : ∀ n, n ≤ tb.length → ∀ i, i < n →
      ((List.range n).foldl (fun l j => l.set j 32) tb).getD i 0 = 32 := by
    intro n
    induction n with
    | zero =>
      intro _ i h
      omega
    | succ n ih =>
      intro hn i h
      rw [List.range_succ, List.foldl_append, List.foldl_cons, List.foldl_nil]
      by_cases hin : i = n
      · subst hin
        rw [getD_set_self]
        rw [Scrambler.XRScrambler.foldl_set_length (List.range i) (fun j => j)
          (fun _ => 32) tb]
        omega
      · rw [getD_set_ne _ _ _ _ hin]
        exact ih (by omega) i (by omega)
  exact key (N - F) htb i hlt

end LzHuf

namespace Claims

open LzHuf

/-- Claim C2: an input shorter than 4 bytes makes `Decode` fail with
`WrongDataFormat` (no output is produced — the error carries none);
otherwise any completed run returns exactly `n` bytes, where `n` is the
little-endian u32 stored in the first 4 input bytes.  (The run is hypothesised
to complete within the supplied fuel; the adaptive-Huffman tree walk has no
syntactic bound, so termination itself is not proved here.) -/
theorem c2_decode_output_length (code : List Nat) (fuel : Nat) :
    (code.length < 4 → Decode fuel code = .error .wrongDataFormat) ∧
    (4 ≤ code.length → ∀ out, Decode fuel code = .ok (some out) →
      out.length = textsize_of code) := by
  constructor
  · intro h
    rw [Decode, if_pos h]
  · intro h out hok
    rw [Decode, if_neg (by omega)] at hok
    have hok' : (match decodeLoop fuel
        { br := { getbuf := 0, getlen := 0, src := code, src_pos := 4, src_limit := code.length }
          tree := StartHuff
          out := { dest := List.replicate (textsize_of code) 0, dest_pos := 0,
                   dest_limit := textsize_of code }
          text_buf := prefill text_buf_init
          r := N - F
          count := 0
          textsize := textsize_of code } with
      | none => (Except.ok none : Except PyErr (Option (List Nat)))
      | some st => Except.ok (some (st.out.dest.take st.textsize))) =
        Except.ok (some out) := hok
    split at hok'
    · exact absurd hok' (by simp)
    · next st' hst' =>
      rw [Except.ok.injEq, Option.some.injEq] at hok'
      subst hok'
      obtain ⟨e1, e2, e3⟩ := decodeLoop_inv fuel _ st' hst'
        (by
          show (List.replicate (textsize_of code) 0).length = textsize_of code
          rw [List.length_replicate])
        (le_refl _)
      have e1' : st'.textsize = textsize_of code := e1
      rw [List.length_take, e1']
      omega

/-- Witness for C2: the 4-byte input `[0, 0, 0, 0]` declares a decompressed
length of 0 and decoding it completes with the empty output. -/
theorem c2_decode_output_length_witness :
    4 ≤ ([0, 0, 0, 0] : List Nat).length ∧
    ([] : List Nat).length = textsize_of [0, 0, 0, 0] :=
  ⟨by decide, (c2_decode_output_length [0, 0, 0, 0] 1).2 (by decide) [] (by rfl)⟩

/-- Claim C9, counterexample: at the start of a `Decode` call on a fresh
instance the pre-fill loop writes the space character only to cells
`0 .. N - F - 1`; cell `N - F` (= 4036, inside the 4096-cell ring) still
holds 0, so not every ring-buffer cell holds `0x20`. -/
theorem c9_ring_buffer_counterexample :
    (prefill text_buf_init).getD (N - F) 0 = 0 ∧
    ¬ (∀ i, i < N → (prefill text_buf_init).getD i 0 = 0x20) := by
  have h1 : (prefill text_buf_init).getD (N - F) 0 = 0 := by
    rw [prefill_getD_ge _ _ (le_refl _), text_buf_init,
      List.getD_eq_getElem _ 0 (by rw [List.length_replicate]; decide)]
    simp
  refine ⟨h1, fun hall => ?_⟩
  have h2 := hall (N - F) (by decide)
  rw [h1] at h2
  exact absurd h2 (by decide)

/-- Claim C9, amended: the pre-fill loop of `Decode` sets only the first
`N - F = 4036` ring-buffer cells to the space character `0x20`; the remaining
cells keep their previous contents — 0 on a fresh instance (where `__init__`
zeroed `text_buf`), and in general whatever an earlier `Decode` left there. -/
theorem c9_ring_buffer_amended :
    (∀ i, i < N - F → (prefill text_buf_init).getD i 0 = 0x20) ∧
    (∀ i, N - F ≤ i → i < N → (prefill text_buf_init).getD i 0 = 0) ∧
    (∀ tb : List Nat, ∀ i, N - F ≤ i → (prefill tb).getD i 0 = tb.getD i 0) := by
  refine ⟨?_, ?_, ?_⟩
  · intro i hi
    exact prefill_getD_lt text_buf_init
      (by rw [text_buf_init, List.length_replicate]; decide) i hi
  · intro i h1 h2
    rw [prefill_getD_ge _ _ h1, text_buf_init,
      List.getD_eq_getElem _ 0 (by
        rw [List.length_replicate]
        have hlt : N < N + F - 1 := by decide
        omega)]
    simp
  · intro tb i h
    exact prefill_getD_ge tb i h

/-- Witness for the amended C9: cell 0 holds a space and cell 4036 holds 0 at
the start of a fresh `Decode` run. -/
theorem c9_ring_buffer_amended_witness :
    (prefill text_buf_init).getD 0 0 = 0x20 ∧
    (prefill text_buf_init).getD 4036 0 = 0 :=
  ⟨c9_ring_buffer_amended.1 0 (by decide),
   c9_ring_buffer_amended.2.1 4036 (by decide) (by decide)⟩

end Claims

namespace DBReader

/-- The call `LzHuf.Decode(buff, len(buff))` as written in
`XRReader._unscramble_chunk` (and `FileOrPath_1114.get_data`): `Decode` is an
instance method `Decode(self, code)`, so the unbound class access binds the
chunk bytes to `self` and the `int` `len(buff)` to `code`; the body's first
statement, `len(code)`, applies `len` to an `int` and raises `TypeError`. -/
def Decode_class_call (selfArg : List Nat) (codeArg : Nat) :
    Except PyErr (List Nat) :=
  .error .typeError

/-- The inner helper `unscramble(buff, config)` of `_unscramble_chunk`:
decrypt with the Stream Cipher, then decode with a fresh `LzHuf` instance
(this call, `lz_huf.Decode(buff)`, is a correct bound call). -/
def unscramble (fuel : Nat) (buff : List Nat)
    (config : Scrambler.XRScramblerConfig) : Except PyErr (Option (List Nat)) :=
  let buff := Scrambler.XRScrambler.decrypt config buff
  LzHuf.Decode fuel buff

/-- `XRReader._unscramble_chunk` applied to the raw chunk bytes (the result
of `chunk.get_data()`): the version match; for the four plain versions a
compressed chunk goes through `LzHuf.Decode(buff, len(buff))` (the unbound
class call above), for the 2947 versions through `unscramble`; with the
compression bit clear — or for a version outside the match arms — the bytes
are returned unchanged. -/
def unscramble_chunk (fuel : Nat) (version : DbVersion) (is_compressed : Bool)
    (buff : List Nat) : Except PyErr (Option (List Nat)) :=
  match version with
  | .V1114 | .V2215 | .V2945 | .VXDB =>
    if is_compressed then
      match Decode_class_call buff buff.length with
      | .error e => .error e
      | .ok b => .ok (some b)
    else .ok (some buff)
  | .V2947RU =>
    if is_compressed then unscramble fuel buff .CC_RU else .ok (some buff)
  | .V2947WW =>
    if is_compressed then unscramble fuel buff .CC_WW else .ok (some buff)
  | .AUTO => .ok (some buff)

end DBReader

namespace Claims

/-- Claim C3: evaluation of `_unscramble_chunk` at the failing inputs.  For
every version in {V1114, V2215, V2945, VXDB} a compressed chunk raises
`TypeError` (the Adaptive Codec is never applied, because
`LzHuf.Decode(buff, len(buff))` is an unbound instance-method call whose
first statement applies `len` to an `int`), while an uncompressed chunk is
returned unchanged for every version, as the claim states. -/
theorem c3_unscramble_chunk_typeerror (fuel : Nat) (buff : List Nat) :
    DBReader.unscramble_chunk fuel .V1114 true buff = .error .typeError ∧
    DBReader.unscramble_chunk fuel .V2215 true buff = .error .typeError ∧
    DBReader.unscramble_chunk fuel .V2945 true buff = .error .typeError ∧
    DBReader.unscramble_chunk fuel .VXDB true buff = .error .typeError ∧
    (∀ v : DBReader.DbVersion,
      DBReader.unscramble_chunk fuel v false buff = .ok (some buff)) := by
  refine ⟨rfl, rfl, rfl, rfl, fun v => ?_⟩
  cases v <;> rfl

end Claims



